import Mathlib

/-!
Shallow embedding of `src/wip/TS Source/tweens/Tween.ts` (Phaser.Tween).

Modelling conventions:
* JS numbers are modelled as exact rationals (`ℚ`).  `NaN` (the result of
  numeric coercion of `undefined` or of a multi-element array) is collapsed
  into the `undefined` constructor; the (unreachable for every claim below)
  string result of `+` on an array operand is also collapsed to `undefined`.
* A JS object is an association list in insertion order; assignment to an
  existing key keeps its position, assignment to a new key appends
  (`setProp`), matching `for ... in` enumeration order.
* `this.game === null` is modelled by the boolean `hasGame` (the constructor
  dereferences `game`, so only the field's nullability matters for `start`),
  and a `null` target by `object = none`.
* `_startTime` is initialised to `null`; in every numeric context JS coerces
  `null` to `0`, so it is modelled as the rational `0`.
* Signal dispatches, `TweenManager.add` and the `start()` calls on chained
  tweens are recorded in an event trace; chained tweens themselves are
  opaque, so only their count is kept.
* A thrown `Error` (or the `TypeError` from writing a property of a null
  target) aborts the surrounding call; the partially mutated state at the
  throw point is returned together with the `threw` outcome, matching JS
  exception semantics (the dead `continue` after `throw` in `start` has no
  effect).
* `ℚ` division by zero yields `0` rather than JS `Infinity`/`NaN`; the spec
  assumes `duration > 0` and every theorem below that divides carries that
  hypothesis.
-/

namespace Phaser

/-- A JS value as far as `Tween.ts` can observe it: a number, `null`,
`undefined`-or-`NaN`, or an array. -/
inductive JSVal where
  | num (q : ℚ)
  | null
  | undefined
  | arr (elems : List JSVal)

/-- Structural equality test for `JSVal` (the nested list is compared
element by element). -/
def JSVal.beq : JSVal → JSVal → Bool
  | .num a, .num b => a == b
  | .num _, .null => false
  | .num _, .undefined => false
  | .num _, .arr _ => false
  | .null, .num _ => false
  | .null, .null => true
  | .null, .undefined => false
  | .null, .arr _ => false
  | .undefined, .num _ => false
  | .undefined, .null => false
  | .undefined, .undefined => true
  | .undefined, .arr _ => false
  | .arr _, .num _ => false
  | .arr _, .null => false
  | .arr _, .undefined => false
  | .arr [], .arr [] => true
  | .arr [], .arr (_ :: _) => false
  | .arr (_ :: _), .arr [] => false
  | .arr (x :: xs), .arr (y :: ys) => x.beq y && (JSVal.arr xs).beq (.arr ys)

instance : DecidableEq JSVal := fun x y =>
  decidable_of_iff (JSVal.beq x y = true)
    (by induction x, y using JSVal.beq.induct <;> simp_all [JSVal.beq])

/-- JS `ToNumber` coercion restricted to the values above, `none` = `NaN`.
`null` → 0, `undefined` → NaN, `[]` → 0, a singleton array coerces its
element via its string form (`[null]`, `[undefined]` → `""` → 0), longer
arrays stringify with commas and give NaN. -/
def JSVal.toNum : JSVal → Option ℚ
  | .num q => some q
  | .null => some 0
  | .undefined => none
  | .arr [] => some 0
  | .arr [.undefined] => some 0
  | .arr [.null] => some 0
  | .arr [x] => x.toNum
  | .arr (_ :: _ :: _) => none

/-- `x - y` under JS numeric coercion. -/
def jsSub (x y : JSVal) : JSVal :=
  match x.toNum, y.toNum with
  | some a, some b => .num (a - b)
  | _, _ => .undefined

/-- `x * t` for a raw number `t` under JS numeric coercion. -/
def jsMulQ (x : JSVal) (t : ℚ) : JSVal :=
  match x.toNum with
  | some a => .num (a * t)
  | none => .undefined

/-- `x + y`: numeric addition when both sides coerce; the string
concatenation an array operand would produce is collapsed to `undefined`
(never reached by any claim). -/
def jsAdd (x y : JSVal) : JSVal :=
  match x.toNum, y.toNum with
  | some a, some b => .num (a + b)
  | _, _ => .undefined

/-- `obj[k]` on a JS object in insertion order; `none` = key absent. -/
def lookupProp : List (String × JSVal) → String → Option JSVal
  | [], _ => none
  | (k', v) :: rest, k => if k' = k then some v else lookupProp rest k

/-- `obj[k] = v`: overwrite in place if present, append if new. -/
def setProp : List (String × JSVal) → String → JSVal → List (String × JSVal)
  | [], k, v => [(k, v)]
  | (k', v') :: rest, k, v =>
      if k' = k then (k, v) :: rest else (k', v') :: setProp rest k v

/-- Observable side effects of a `Tween` call, in program order. -/
inductive TweenEvent where
  | managerAdd
  | startDispatch
  | updateDispatch (t : ℚ)
  | completeDispatch
  | chainStart (i : ℕ)
deriving DecidableEq

/-- Result of `start` (and of the internal restarts that reuse it):
`noTarget` is the early `return;` (JS `undefined`), `threw` a propagating
exception. -/
inductive StartOutcome where
  | noTarget
  | ok
  | threw
deriving DecidableEq

/-- Result of `update`: `finished` = `return false`, `alive` = `return true`,
`threw` a propagating exception. -/
inductive UpdateOutcome where
  | alive
  | finished
  | threw
deriving DecidableEq

/-- The mutable state of one `Phaser.Tween`. -/
structure Tween where
  object : Option (List (String × JSVal))
  hasGame : Bool
  valuesStart : List (String × JSVal)
  valuesEnd : List (String × JSVal)
  duration : ℚ
  delayTime : ℚ
  startTime : ℚ
  loopFlag : Bool
  yoyoFlag : Bool
  yoyoCount : ℕ
  isRunning : Bool
  paused : Bool
  chainedCount : ℕ
  easingFunction : ℚ → ℚ
  interpolationFunction : List JSVal → ℚ → JSVal

/-- The constructor: defaults from the field initialisers of `Tween.ts`
(`_duration = 1000`, `_delayTime = 0`, `_startTime = null ⇒ 0`, flags off);
the default easing/interpolation functions come from the game context and
are parameters here. -/
def mkTween (object : Option (List (String × JSVal))) (ease : ℚ → ℚ)
    (interp : List JSVal → ℚ → JSVal) : Tween where
  object := object
  hasGame := true
  valuesStart := []
  valuesEnd := []
  duration := 1000
  delayTime := 0
  startTime := 0
  loopFlag := false
  yoyoFlag := false
  yoyoCount := 0
  isRunning := false
  paused := false
  chainedCount := 0
  easingFunction := ease
  interpolationFunction := interp

namespace Tween

/-- One iteration of the `for (var property in this._valuesEnd)` loop of
`start`, for key `k`: a null or absent target property throws (first
component `true`); a non-empty array end value gets the current target
value prepended; `looped == false` captures the current target value into
`_valuesStart`. -/
def startPropStep (obj : List (String × JSVal)) (looped : Bool) (k : String)
    (vS vE : List (String × JSVal)) :
    Bool × List (String × JSVal) × List (String × JSVal) :=
  match lookupProp obj k with
  | none => (true, vS, vE)
  | some .null => (true, vS, vE)
  | some cur =>
      match lookupProp vE k with
      | some (.arr l) =>
          if l = [] then (false, vS, vE)
          else (false, (if looped then vS else setProp vS k cur),
                setProp vE k (.arr (cur :: l)))
      | _ => (false, (if looped then vS else setProp vS k cur), vE)

/-- The whole `start` loop: `snap` is the key snapshot being iterated,
`vS`/`vE` the live `_valuesStart` / `_valuesEnd`.  Returns (threw?, final
`_valuesStart`, final `_valuesEnd`); a throw aborts the rest of the loop. -/
def startProps (obj : List (String × JSVal)) (looped : Bool) :
    List (String × JSVal) → List (String × JSVal) → List (String × JSVal) →
    Bool × List (String × JSVal) × List (String × JSVal)
  | [], vS, vE => (false, vS, vE)
  | (k, _) :: rest, vS, vE =>
      match startPropStep obj looped k vS vE with
      | (true, vS1, vE1) => (true, vS1, vE1)
      | (false, vS1, vE1) => startProps obj looped rest vS1 vE1

/-- `start(looped)`.  `now` is `this.game.time.now`. -/
def start (s : Tween) (looped : Bool) (now : ℚ) :
    StartOutcome × Tween × List TweenEvent :=
  if s.hasGame = false ∨ s.object = none then
    (.noTarget, s, [])
  else
    let obj := s.object.getD []
    let ev := if looped then ([] : List TweenEvent)
              else [.managerAdd, .startDispatch]
    let s1 := { s with startTime := now + s.delayTime, isRunning := true }
    let r := startProps obj looped s.valuesEnd s.valuesStart s.valuesEnd
    (if r.1 then .threw else .ok,
     { s1 with valuesStart := r.2.1, valuesEnd := r.2.2 }, ev)

/-- The swap loop of `reverse`: iterates the key snapshot of `_valuesStart`,
swapping `_valuesStart[k]` and `_valuesEnd[k]` (an absent key reads as
`undefined`). -/
def swapProps : List (String × JSVal) → List (String × JSVal) →
    List (String × JSVal) → List (String × JSVal) × List (String × JSVal)
  | [], vS, vE => (vS, vE)
  | (k, _) :: rest, vS, vE =>
      let temp := (lookupProp vS k).getD .undefined
      let vS1 := setProp vS k ((lookupProp vE k).getD .undefined)
      let vE1 := setProp vE k temp
      swapProps rest vS1 vE1

/-- `reverse()`: swap start/end values, bump `_yoyoCount`, restart
internally via `start(true)`. -/
def reverse (s : Tween) (now : ℚ) : StartOutcome × Tween × List TweenEvent :=
  let p := swapProps s.valuesStart s.valuesStart s.valuesEnd
  start { s with valuesStart := p.1, valuesEnd := p.2,
                 yoyoCount := s.yoyoCount + 1 } true now

/-- The write-back loop of `reset`: `this._object[k] = this._valuesStart[k]`
for every captured key. -/
def writeBack (obj : List (String × JSVal)) :
    List (String × JSVal) → List (String × JSVal)
  | [] => obj
  | (k, v) :: rest => writeBack (setProp obj k v) rest

/-- `reset()`: restore the captured start values onto the target, then
restart internally via `start(true)`.  Writing a property of a `null`
target throws (`TypeError`). -/
def reset (s : Tween) (now : ℚ) : StartOutcome × Tween × List TweenEvent :=
  match s.object with
  | none =>
      if s.valuesStart = [] then start s true now else (.threw, s, [])
  | some obj =>
      start { s with object := some (writeBack obj s.valuesStart) } true now

/-- The per-key body of the property loop of `update`: an array end value
is interpolated, anything else is the linear blend
`vS[k] + (vE[k] - vS[k]) * t` under JS coercion. -/
def blendVal (interp : List JSVal → ℚ → JSVal) (t : ℚ)
    (vEnd : List (String × JSVal)) (k : String) (sv : JSVal) : JSVal :=
  match lookupProp vEnd k with
  | some (.arr l) => interp l t
  | _ => jsAdd sv (jsMulQ (jsSub ((lookupProp vEnd k).getD .undefined) sv) t)

/-- The property loop of `update`: write `blendVal` of each captured key
onto the target object, in snapshot order. -/
def updateProps (interp : List JSVal → ℚ → JSVal) (t : ℚ)
    (vEnd : List (String × JSVal)) :
    List (String × JSVal) → List (String × JSVal) → List (String × JSVal)
  | [], obj => obj
  | (k, sv) :: rest, obj =>
      updateProps interp t vEnd rest (setProp obj k (blendVal interp t vEnd k sv))

/-- `start()` calls on the chained tweens, in sequence order. -/
def chainStarts (n : ℕ) : List TweenEvent :=
  (List.range n).map .chainStart

/-- `update(time)`.  `now` is `this.game.time.now`, consumed by the internal
restarts (`reverse`/`reset`). -/
def update (s : Tween) (time now : ℚ) :
    UpdateOutcome × Tween × List TweenEvent :=
  if s.paused = true ∨ time < s.startTime then
    (.alive, s, [])
  else
    let el0 := (time - s.startTime) / s.duration
    let elapsed := if el0 > 1 then 1 else el0
    let t := s.easingFunction elapsed
    if s.object = none ∧ s.valuesStart ≠ [] then
      (.threw, s, [])
    else
      let newObj := s.object.map (fun obj =>
        updateProps s.interpolationFunction t s.valuesEnd s.valuesStart obj)
      let s' := { s with object := newObj }
      let ev1 : List TweenEvent := [.updateDispatch t]
      if elapsed = 1 then
        if s'.yoyoFlag = true then
          if s'.yoyoCount = 0 then
            let r := reverse s' now
            ((if r.1 = .threw then .threw else .alive), r.2.1, ev1 ++ r.2.2)
          else
            if s'.loopFlag = false then
              (.finished, s',
               ev1 ++ [.completeDispatch] ++ chainStarts s'.chainedCount)
            else
              let r := reverse { s' with yoyoCount := 0 } now
              ((if r.1 = .threw then .threw else .alive), r.2.1, ev1 ++ r.2.2)
        else
          if s'.loopFlag = true then
            let r := reset { s' with yoyoCount := 0 } now
            ((if r.1 = .threw then .threw else .alive), r.2.1, ev1 ++ r.2.2)
          else
            (.finished,
             { s' with isRunning :=
                 if s'.chainedCount = 0 then false else s'.isRunning },
             ev1 ++ [.completeDispatch] ++ chainStarts s'.chainedCount)
      else
        (.alive, s', ev1)

/-- `to(properties, duration, ease, autoStart, delay, loop, yoyo)`:
replaces the end values wholesale, keeps the easing unless a non-null one
is supplied, keeps the delay unless the new one is positive, resets
`_yoyoCount`, and starts immediately when `autoStart`. -/
def «to» (s : Tween) (properties : List (String × JSVal)) (duration : ℚ)
    (ease : Option (ℚ → ℚ)) (autoStart : Bool) (delay : ℚ)
    (loopArg yoyoArg : Bool) (now : ℚ) : Tween × List TweenEvent :=
  let s1 := { s with
    duration := duration
    valuesEnd := properties
    easingFunction := match ease with | some f => f | none => s.easingFunction
    delayTime := if delay > 0 then delay else s.delayTime
    loopFlag := loopArg
    yoyoFlag := yoyoArg
    yoyoCount := 0 }
  if autoStart = true then
    let r := start s1 false now
    (r.2.1, r.2.2)
  else
    (s1, [])

/-- `loop(value)`. -/
def loop (s : Tween) (value : Bool) : Tween :=
  { s with loopFlag := value }

/-- `yoyo(value)`: also resets the yoyo counter. -/
def yoyo (s : Tween) (value : Bool) : Tween :=
  { s with yoyoFlag := value, yoyoCount := 0 }

/-- `chain(tween)`: chained tweens are opaque here, only their count and
start order are observable. -/
def chain (s : Tween) : Tween :=
  { s with chainedCount := s.chainedCount + 1 }

/-- `this._object[k]` read through the possibly-null target. -/
def objLookup (s : Tween) (k : String) : Option JSVal :=
  s.object.bind (fun o => lookupProp o k)

/-- `Phaser.Easing.Linear.None`, the default easing installed by the
constructor. -/
def linEase : ℚ → ℚ := fun q => q

/-- A stand-in interpolation function (its value is irrelevant to every
claim exercised on scalar properties). -/
def constInterp : List JSVal → ℚ → JSVal := fun _ _ => .num 0

/-- Concrete tween on target `{x: 0}`. -/
def exScalar0 : Tween := mkTween (some [("x", .num 0)]) linEase constInterp

/-- `to({x: 10}, 100)`. -/
def exScalarCfg : Tween :=
  («to» exScalar0 [("x", .num 10)] 100 none false 0 false false 0).1

/-- ... then `start()` at time 0. -/
def exScalarStarted : Tween := (start exScalarCfg false 0).2.1

/-- `to({x: 10}, 100, null, false, 0, true)`: looping variant. -/
def exLoopCfg : Tween :=
  («to» exScalar0 [("x", .num 10)] 100 none false 0 true false 0).1

/-- ... then `start()` at time 0. -/
def exLoopStarted : Tween := (start exLoopCfg false 0).2.1

/-- `to({x: [10]}, 100)`: keyframe-sequence end value. -/
def exArrCfg : Tween :=
  («to» exScalar0 [("x", .arr [.num 10])] 100 none false 0 false false 0).1

/-- ... then `start()` at time 0. -/
def exArrStarted : Tween := (start exArrCfg false 0).2.1

/-- Concrete tween on target `{a: null, b: 5}`. -/
def exNull0 : Tween :=
  mkTween (some [("a", .null), ("b", .num 5)]) linEase constInterp

/-- `to({a: 1, b: 2}, 100)` on the target with the null property. -/
def exNullCfg : Tween :=
  («to» exNull0 [("a", .num 1), ("b", .num 2)] 100 none false 0 false false 0).1

/-- `to({x: 10}, 100, null, false, 0, false, true)`: yoyo variant. -/
def exYoyoCfg : Tween :=
  («to» exScalar0 [("x", .num 10)] 100 none false 0 false true 0).1

/-- ... then `start()` at time 0. -/
def exYoyoStarted : Tween := (start exYoyoCfg false 0).2.1

/-- The started scalar tween with two chained tweens attached. -/
def exChained : Tween := chain (chain exScalarStarted)

/-- The yoyo tween after its forward leg completed at time 100 (the update
internally reversed it, so `yoyoCount = 1`). -/
def exYoyoLeg2 : Tween := (update exYoyoStarted 100 100).2.1

/-- The plain scalar tween run to completion at time 100 (`x = 10`). -/
def exScalarDone : Tween := (update exScalarStarted 100 100).2.1

/-- A tween whose target object is `null`. -/
def exNoTarget : Tween := mkTween none linEase constInterp

/-- The states reachable by the external protocol of claim C9: construct,
configure via `to`/`loop`/`yoyo`, start externally, and tick `update`
(`reverse`/`reset` run only inside `update`). -/
inductive ReachableTween : Tween → Prop where
  | init : ∀ obj ease interp, ReachableTween (mkTween obj ease interp)
  | toStep : ∀ s props dur ease auto delay la ya now, ReachableTween s →
      ReachableTween («to» s props dur ease auto delay la ya now).1
  | loopStep : ∀ s v, ReachableTween s → ReachableTween (loop s v)
  | yoyoStep : ∀ s v, ReachableTween s → ReachableTween (yoyo s v)
  | startStep : ∀ s now, ReachableTween s →
      ReachableTween (start s false now).2.1
  | updateStep : ∀ s time now, ReachableTween s →
      ReachableTween (update s time now).2.1

theorem lookupProp_setProp_self (l : List (String × JSVal)) (k : String)
    (v : JSVal) : lookupProp (setProp l k v) k = some v := by
  induction l with
  | nil => simp [setProp, lookupProp]
  | cons hd tl ih =>
      obtain ⟨k', v'⟩ := hd
      by_cases h : k' = k <;> simp [setProp, lookupProp, h, ih]

theorem lookupProp_setProp_ne (l : List (String × JSVal)) {k k' : String}
    (v : JSVal) (h : k ≠ k') :
    lookupProp (setProp l k v) k' = lookupProp l k' := by
  induction l with
  | nil => simp [setProp, lookupProp, h]
  | cons hd tl ih =>
      obtain ⟨k0, v0⟩ := hd
      by_cases h0 : k0 = k <;> simp [setProp, lookupProp, h0, h, ih]

theorem lookupProp_mem {l : List (String × JSVal)} {k : String} {v : JSVal}
    (h : lookupProp l k = some v) : (k, v) ∈ l := by
  induction l with
  | nil => simp [lookupProp] at h
  | cons hd tl ih =>
      obtain ⟨k0, v0⟩ := hd
      by_cases h0 : k0 = k
      · subst h0
        simp [lookupProp] at h
        simp [h]
      · simp [lookupProp, h0] at h
        exact List.mem_cons_of_mem _ (ih h)

theorem mem_lookupProp {l : List (String × JSVal)} {k : String} {v : JSVal}
    (hnd : (l.map Prod.fst).Nodup) (hmem : (k, v) ∈ l) :
    lookupProp l k = some v := by
  induction l with
  | nil => cases hmem
  | cons hd tl ih =>
      obtain ⟨k0, v0⟩ := hd
      simp only [List.map_cons, List.nodup_cons] at hnd
      rcases List.mem_cons.mp hmem with heq | hmem'
      · injection heq with h1 h2
        subst h1
        subst h2
        simp [lookupProp]
      · have hk : k0 ≠ k := by
          intro h
          exact hnd.1 (h ▸ (List.mem_map.mpr ⟨(k, v), hmem', rfl⟩))
        simp [lookupProp, hk, ih hnd.2 hmem']


theorem start_object (s : Tween) (looped : Bool) (now : ℚ) :
    (start s looped now).2.1.object = s.object := by
  unfold start; split <;> rfl

theorem start_hasGame (s : Tween) (looped : Bool) (now : ℚ) :
    (start s looped now).2.1.hasGame = s.hasGame := by
  unfold start; split <;> rfl

theorem start_duration (s : Tween) (looped : Bool) (now : ℚ) :
    (start s looped now).2.1.duration = s.duration := by
  unfold start; split <;> rfl

theorem start_delayTime (s : Tween) (looped : Bool) (now : ℚ) :
    (start s looped now).2.1.delayTime = s.delayTime := by
  unfold start; split <;> rfl

theorem start_loopFlag (s : Tween) (looped : Bool) (now : ℚ) :
    (start s looped now).2.1.loopFlag = s.loopFlag := by
  unfold start; split <;> rfl

theorem start_yoyoFlag (s : Tween) (looped : Bool) (now : ℚ) :
    (start s looped now).2.1.yoyoFlag = s.yoyoFlag := by
  unfold start; split <;> rfl

theorem start_yoyoCount (s : Tween) (looped : Bool) (now : ℚ) :
    (start s looped now).2.1.yoyoCount = s.yoyoCount := by
  unfold start; split <;> rfl

theorem start_paused (s : Tween) (looped : Bool) (now : ℚ) :
    (start s looped now).2.1.paused = s.paused := by
  unfold start; split <;> rfl

theorem start_chainedCount (s : Tween) (looped : Bool) (now : ℚ) :
    (start s looped now).2.1.chainedCount = s.chainedCount := by
  unfold start; split <;> rfl

theorem start_easingFunction (s : Tween) (looped : Bool) (now : ℚ) :
    (start s looped now).2.1.easingFunction = s.easingFunction := by
  unfold start; split <;> rfl

theorem start_interpolationFunction (s : Tween) (looped : Bool) (now : ℚ) :
    (start s looped now).2.1.interpolationFunction = s.interpolationFunction := by
  unfold start; split <;> rfl

theorem start_run (s : Tween) (looped : Bool) (now : ℚ)
    (h : ¬(s.hasGame = false ∨ s.object = none)) :
    (start s looped now).2.1.startTime = now + s.delayTime ∧
    (start s looped now).2.1.isRunning = true ∧
    (start s looped now).2.2 =
      (if looped then ([] : List TweenEvent)
       else [.managerAdd, .startDispatch]) := by
  unfold start
  rw [if_neg h]
  simp

theorem startPropStep_looped_vS (obj : List (String × JSVal)) (k : String)
    (vS vE : List (String × JSVal)) :
    (startPropStep obj true k vS vE).2.1 = vS := by
  unfold startPropStep
  split
  · rfl
  · rfl
  · split
    · split <;> rfl
    · rfl

theorem startPropStep_vS_ne (obj : List (String × JSVal)) (looped : Bool)
    (k : String) (vS vE : List (String × JSVal)) {k' : String} (h : k ≠ k') :
    lookupProp (startPropStep obj looped k vS vE).2.1 k' = lookupProp vS k' := by
  unfold startPropStep
  split
  · rfl
  · rfl
  · split
    · split
      · rfl
      · cases looped <;> simp [lookupProp_setProp_ne _ _ h]
    · cases looped <;> simp [lookupProp_setProp_ne _ _ h]

theorem startPropStep_vE_ne (obj : List (String × JSVal)) (looped : Bool)
    (k : String) (vS vE : List (String × JSVal)) {k' : String} (h : k ≠ k') :
    lookupProp (startPropStep obj looped k vS vE).2.2 k' = lookupProp vE k' := by
  unfold startPropStep
  split
  · rfl
  · rfl
  · split
    · split
      · rfl
      · simp [lookupProp_setProp_ne _ _ h]
    · rfl

theorem startPropStep_threw (obj : List (String × JSVal)) (looped : Bool)
    (k : String) (vS vE : List (String × JSVal)) :
    ((startPropStep obj looped k vS vE).1 = true ↔
      (lookupProp obj k = none ∨ lookupProp obj k = some .null)) ∧
    ((startPropStep obj looped k vS vE).1 = true →
      startPropStep obj looped k vS vE = (true, vS, vE)) := by
  unfold startPropStep
  split
  · rename_i heq
    simp [heq]
  · rename_i heq
    simp [heq]
  · rename_i cur heq hcur
    constructor
    · constructor
      · intro habs
        exfalso
        revert habs
        split
        · split <;> simp
        · simp
      · intro habs
        rcases habs with h1 | h1
        · rw [hcur] at h1; cases h1
        · rw [hcur] at h1
          injection h1 with h1
          subst h1
          simp_all
    · intro habs
      exfalso
      revert habs
      split
      · split <;> simp
      · simp

theorem startPropStep_vE_scalar (obj : List (String × JSVal)) (looped : Bool)
    (k : String) (vS vE : List (String × JSVal)) {x : JSVal}
    (h : lookupProp vE k = some x) (hx : ∀ l, x ≠ .arr l) :
    (startPropStep obj looped k vS vE).2.2 = vE := by
  unfold startPropStep
  split
  · rfl
  · rfl
  · rw [h]
    cases x with
    | arr l => exact absurd rfl (hx l)
    | num q => rfl
    | null => rfl
    | undefined => rfl

theorem startPropStep_vE_arr (obj : List (String × JSVal)) (looped : Bool)
    (k : String) (vS vE : List (String × JSVal)) {c : JSVal} {l : List JSVal}
    (h : lookupProp vE k = some (.arr l)) (hl : l ≠ [])
    (hc : lookupProp obj k = some c) (hcn : c ≠ .null) :
    (startPropStep obj looped k vS vE).2.2 = setProp vE k (.arr (c :: l)) := by
  unfold startPropStep
  rw [hc]
  cases c with
  | null => exact absurd rfl hcn
  | num q => rw [h]; simp [hl]
  | undefined => rw [h]; simp [hl]
  | arr cl => rw [h]; simp [hl]

theorem startPropStep_no_throw (obj : List (String × JSVal)) (looped : Bool)
    (k : String) (vS vE : List (String × JSVal))
    (h1 : lookupProp obj k ≠ none) (h2 : lookupProp obj k ≠ some .null) :
    (startPropStep obj looped k vS vE).1 = false := by
  cases hb : (startPropStep obj looped k vS vE).1
  · rfl
  · exact absurd ((startPropStep_threw obj looped k vS vE).1.mp hb)
      (by simp [h1, h2])

theorem startProps_looped_vS (obj : List (String × JSVal)) :
    ∀ snap vS vE, (startProps obj true snap vS vE).2.1 = vS := by
  intro snap
  induction snap with
  | nil => intro vS vE; rfl
  | cons hd tl ih =>
      intro vS vE
      obtain ⟨k, v⟩ := hd
      have hvS := startPropStep_looped_vS obj k vS vE
      unfold startProps
      rcases hstep : startPropStep obj true k vS vE with ⟨b, vS1, vE1⟩
      rw [hstep] at hvS
      cases b
      · simpa [ih] using hvS
      · simpa using hvS

theorem startProps_vS_not_mem (obj : List (String × JSVal)) (looped : Bool) :
    ∀ snap vS vE k', k' ∉ snap.map Prod.fst →
      lookupProp (startProps obj looped snap vS vE).2.1 k' = lookupProp vS k' := by
  intro snap
  induction snap with
  | nil => intro vS vE k' _; rfl
  | cons hd tl ih =>
      intro vS vE k' h
      obtain ⟨k, v⟩ := hd
      simp only [List.map_cons, List.mem_cons, not_or] at h
      have hvS := startPropStep_vS_ne obj looped k vS vE (fun he => h.1 he.symm)
      unfold startProps
      rcases hstep : startPropStep obj looped k vS vE with ⟨b, vS1, vE1⟩
      rw [hstep] at hvS
      cases b
      · rw [ih vS1 vE1 k' h.2]
        exact hvS
      · exact hvS

theorem startProps_vE_not_mem (obj : List (String × JSVal)) (looped : Bool) :
    ∀ snap vS vE k', k' ∉ snap.map Prod.fst →
      lookupProp (startProps obj looped snap vS vE).2.2 k' = lookupProp vE k' := by
  intro snap
  induction snap with
  | nil => intro vS vE k' _; rfl
  | cons hd tl ih =>
      intro vS vE k' h
      obtain ⟨k, v⟩ := hd
      simp only [List.map_cons, List.mem_cons, not_or] at h
      have hvE := startPropStep_vE_ne obj looped k vS vE (fun he => h.1 he.symm)
      unfold startProps
      rcases hstep : startPropStep obj looped k vS vE with ⟨b, vS1, vE1⟩
      rw [hstep] at hvE
      cases b
      · rw [ih vS1 vE1 k' h.2]
        exact hvE
      · exact hvE

theorem startProps_cons (obj : List (String × JSVal)) (looped : Bool)
    (k : String) (v : JSVal) (rest vS vE : List (String × JSVal)) :
    startProps obj looped ((k, v) :: rest) vS vE =
      (if (startPropStep obj looped k vS vE).1 = true
       then startPropStep obj looped k vS vE
       else startProps obj looped rest (startPropStep obj looped k vS vE).2.1
              (startPropStep obj looped k vS vE).2.2) := by
  rcases hstep : startPropStep obj looped k vS vE with ⟨b, vS1, vE1⟩
  simp only [startProps]
  rw [hstep]
  cases b <;> simp

theorem startProps_append (obj : List (String × JSVal)) (looped : Bool) :
    ∀ l1 l2 vS vE,
      startProps obj looped (l1 ++ l2) vS vE =
        (if (startProps obj looped l1 vS vE).1 = true
         then startProps obj looped l1 vS vE
         else startProps obj looped l2 (startProps obj looped l1 vS vE).2.1
                (startProps obj looped l1 vS vE).2.2) := by
  intro l1
  induction l1 with
  | nil => intro l2 vS vE; rfl
  | cons hd tl ih =>
      intro l2 vS vE
      obtain ⟨k, v⟩ := hd
      rw [List.cons_append]
      simp only [startProps_cons]
      rcases hstep : startPropStep obj looped k vS vE with ⟨b, vS1, vE1⟩
      cases b
      · simpa using ih l2 vS1 vE1
      · simp

theorem startProps_vE_scalar (obj : List (String × JSVal)) (looped : Bool) :
    ∀ snap vS vE p x, lookupProp vE p = some x → (∀ l, x ≠ .arr l) →
      lookupProp (startProps obj looped snap vS vE).2.2 p = some x := by
  intro snap
  induction snap with
  | nil => intro vS vE p x h _; exact h
  | cons hd tl ih =>
      intro vS vE p x h hx
      obtain ⟨k, v⟩ := hd
      unfold startProps
      rcases hstep : startPropStep obj looped k vS vE with ⟨b, vS1, vE1⟩
      have hvE1 : lookupProp vE1 p = some x := by
        by_cases hk : k = p
        · subst hk
          have := startPropStep_vE_scalar obj looped k vS vE h hx
          rw [hstep] at this
          simp at this
          rw [this]
          exact h
        · have := startPropStep_vE_ne obj looped k vS vE hk
          rw [hstep] at this
          simp at this
          rw [this]
          exact h
      cases b
      · exact ih vS1 vE1 p x hvE1 hx
      · exact hvE1

theorem startProps_vE_arr (obj : List (String × JSVal)) (looped : Bool) :
    ∀ snap vS vE p c l, (snap.map Prod.fst).Nodup →
      (∀ kv ∈ snap, lookupProp obj kv.1 ≠ none ∧
        lookupProp obj kv.1 ≠ some .null) →
      (p, JSVal.arr l) ∈ snap → lookupProp vE p = some (.arr l) → l ≠ [] →
      lookupProp obj p = some c →
      lookupProp (startProps obj looped snap vS vE).2.2 p =
        some (.arr (c :: l)) := by
  intro snap
  induction snap with
  | nil => intro vS vE p c l _ _ hmem; cases hmem
  | cons hd tl ih =>
      intro vS vE p c l hnd hok hmem hvE hl hc
      obtain ⟨k, v⟩ := hd
      simp only [List.map_cons, List.nodup_cons] at hnd
      have hkok := hok (k, v) (List.mem_cons_self _ _)
      have hbstep := startPropStep_no_throw obj looped k vS vE hkok.1 hkok.2
      unfold startProps
      rcases hstep : startPropStep obj looped k vS vE with ⟨b, vS1, vE1⟩
      rw [hstep] at hbstep
      simp at hbstep
      subst hbstep
      rcases List.mem_cons.mp hmem with heq | hmem'
      · injection heq with hk hv
        subst hk
        subst hv
        have hcn : c ≠ JSVal.null := by
          intro hcnull
          exact hkok.2 (hcnull ▸ hc)
        have hE := startPropStep_vE_arr obj looped p vS vE hvE hl hc hcn
        rw [hstep] at hE
        simp at hE
        subst hE
        have hnm : p ∉ tl.map Prod.fst := by
          intro hmemp
          exact hnd.1 hmemp
        rw [startProps_vE_not_mem obj looped tl vS1 _ p hnm]
        exact lookupProp_setProp_self vE p _
      · have hkp : k ≠ p := by
          intro hkp
          subst hkp
          exact hnd.1 (List.mem_map.mpr ⟨(k, JSVal.arr l), hmem', rfl⟩)
        have hvE1 : lookupProp vE1 p = some (.arr l) := by
          have := startPropStep_vE_ne obj looped k vS vE hkp
          rw [hstep] at this
          simp at this
          rw [this]
          exact hvE
        exact ih vS1 vE1 p c l hnd.2 (fun kv hkv => hok kv (List.mem_cons_of_mem _ hkv))
          hmem' hvE1 hl hc

theorem lookupProp_writeBack_not_mem :
    ∀ (l : List (String × JSVal)) (obj : List (String × JSVal)) (k : String),
      k ∉ l.map Prod.fst → lookupProp (writeBack obj l) k = lookupProp obj k := by
  intro l
  induction l with
  | nil => intro obj k _; rfl
  | cons hd tl ih =>
      intro obj k h
      obtain ⟨k0, v0⟩ := hd
      simp only [List.map_cons, List.mem_cons, not_or] at h
      unfold writeBack
      rw [ih _ k h.2, lookupProp_setProp_ne _ _ (fun he => h.1 he.symm)]

theorem lookupProp_writeBack_mem :
    ∀ (l : List (String × JSVal)) (obj : List (String × JSVal)) (k : String)
      (v : JSVal), (l.map Prod.fst).Nodup → (k, v) ∈ l →
      lookupProp (writeBack obj l) k = some v := by
  intro l
  induction l with
  | nil => intro obj k v _ hmem; cases hmem
  | cons hd tl ih =>
      intro obj k v hnd hmem
      obtain ⟨k0, v0⟩ := hd
      simp only [List.map_cons, List.nodup_cons] at hnd
      unfold writeBack
      rcases List.mem_cons.mp hmem with heq | hmem'
      · injection heq with hk hv
        subst hk
        subst hv
        rw [lookupProp_writeBack_not_mem tl _ k hnd.1]
        exact lookupProp_setProp_self obj k v
      · exact ih _ k v hnd.2 hmem'

theorem updateProps_not_mem (interp : List JSVal → ℚ → JSVal) (t : ℚ)
    (vEnd : List (String × JSVal)) :
    ∀ snap obj k, k ∉ snap.map Prod.fst →
      lookupProp (updateProps interp t vEnd snap obj) k = lookupProp obj k := by
  intro snap
  induction snap with
  | nil => intro obj k _; rfl
  | cons hd tl ih =>
      intro obj k h
      obtain ⟨k0, v0⟩ := hd
      simp only [List.map_cons, List.mem_cons, not_or] at h
      unfold updateProps
      rw [ih _ k h.2, lookupProp_setProp_ne _ _ (fun he => h.1 he.symm)]

theorem updateProps_mem (interp : List JSVal → ℚ → JSVal) (t : ℚ)
    (vEnd : List (String × JSVal)) :
    ∀ snap obj k sv, (snap.map Prod.fst).Nodup → (k, sv) ∈ snap →
      lookupProp (updateProps interp t vEnd snap obj) k =
        some (blendVal interp t vEnd k sv) := by
  intro snap
  induction snap with
  | nil => intro obj k sv _ hmem; cases hmem
  | cons hd tl ih =>
      intro obj k sv hnd hmem
      obtain ⟨k0, v0⟩ := hd
      simp only [List.map_cons, List.nodup_cons] at hnd
      unfold updateProps
      rcases List.mem_cons.mp hmem with heq | hmem'
      · injection heq with hk hv
        subst hk
        subst hv
        rw [updateProps_not_mem interp t vEnd tl _ k hnd.1]
        exact lookupProp_setProp_self obj k _
      · exact ih _ k sv hnd.2 hmem'

theorem start_eq (s : Tween) (looped : Bool) (now : ℚ)
    (obj : List (String × JSVal)) (hg : s.hasGame = true)
    (hobj : s.object = some obj) :
    start s looped now =
      ((if (startProps obj looped s.valuesEnd s.valuesStart s.valuesEnd).1 = true
        then .threw else .ok),
       { s with startTime := now + s.delayTime, isRunning := true,
                valuesStart :=
                  (startProps obj looped s.valuesEnd s.valuesStart s.valuesEnd).2.1,
                valuesEnd :=
                  (startProps obj looped s.valuesEnd s.valuesStart s.valuesEnd).2.2 },
       if looped then [] else [.managerAdd, .startDispatch]) := by
  unfold start
  rw [if_neg (by simp [hg, hobj])]
  simp [hobj]

theorem reverse_object (s : Tween) (now : ℚ) :
    (reverse s now).2.1.object = s.object := by
  unfold reverse
  rw [start_object]

theorem reverse_yoyoCount (s : Tween) (now : ℚ) :
    (reverse s now).2.1.yoyoCount = s.yoyoCount + 1 := by
  unfold reverse
  rw [start_yoyoCount]

theorem reset_object_some (s : Tween) (now : ℚ) (obj : List (String × JSVal))
    (hobj : s.object = some obj) :
    (reset s now).2.1.object = some (writeBack obj s.valuesStart) := by
  unfold reset
  rw [hobj]
  rw [start_object]

theorem reset_yoyoCount (s : Tween) (now : ℚ) :
    (reset s now).2.1.yoyoCount = s.yoyoCount := by
  unfold reset
  split
  · split
    · rw [start_yoyoCount]
    · rfl
  · rw [start_yoyoCount]

theorem to_yoyoCount (s : Tween) (props : List (String × JSVal)) (dur : ℚ)
    (ease : Option (ℚ → ℚ)) (auto : Bool) (delay : ℚ) (la ya : Bool)
    (now : ℚ) :
    ((«to» s props dur ease auto delay la ya now).1).yoyoCount = 0 := by
  unfold «to»
  by_cases hauto : auto = true
  · rw [if_pos hauto]
    simp [start_yoyoCount]
  · rw [if_neg hauto]

theorem clampElapsed_eq_one {x : ℚ} (h : 1 ≤ x) :
    (if x > 1 then (1 : ℚ) else x) = 1 := by
  split
  · rfl
  · linarith

theorem clampElapsed_lt_one {x : ℚ} (h : x < 1) :
    (if x > 1 then (1 : ℚ) else x) = x := by
  rw [if_neg (by linarith)]

/-- C2: when `update(time)` reaches clamped elapsed `== 1` with yoyo and loop
both false, it fires the completion notification, then starts every chained
tween in sequence order, sets `isRunning` to false iff the chained-tween
list is empty (with at least one chained tween it stays true), and returns
false. -/
theorem update_plain_completion (s : Tween) (obj : List (String × JSVal))
    (time now : ℚ) (hobj : s.object = some obj) (hp : s.paused = false)
    (hy : s.yoyoFlag = false) (hl : s.loopFlag = false)
    (hd0 : 0 < s.duration) (ht : s.startTime + s.duration ≤ time)
    (hrun : s.isRunning = true) :
    (update s time now).1 = .finished ∧
    (update s time now).2.2 =
      .updateDispatch (s.easingFunction 1) :: .completeDispatch ::
        chainStarts s.chainedCount ∧
    ((update s time now).2.1.isRunning = false ↔ s.chainedCount = 0) := by
  have hguard : ¬(s.paused = true ∨ time < s.startTime) := by
    push_neg
    refine ⟨by simp [hp], by linarith⟩
  have hel : (if (time - s.startTime) / s.duration > 1 then (1 : ℚ)
              else (time - s.startTime) / s.duration) = 1 := by
    apply clampElapsed_eq_one
    rw [le_div_iff₀ hd0]
    linarith
  unfold update
  rw [if_neg hguard,
      if_neg (show ¬(s.object = none ∧ s.valuesStart ≠ []) by simp [hobj])]
  simp only [hobj, Option.map_some', hel, if_true]
  simp only [hy, hl, Bool.false_eq_true, if_false]
  by_cases hn : s.chainedCount = 0 <;> simp [hn, hrun, Bool.false_eq_true]

/-- Witness for C2 at the started `{x: 0} → {x: 10}` tween with two chained
tweens, updated at its end time. -/
theorem update_plain_completion_witness :
    (update exChained 100 100).1 = .finished ∧
    (update exChained 100 100).2.2 =
      .updateDispatch (exChained.easingFunction 1) :: .completeDispatch ::
        chainStarts exChained.chainedCount ∧
    ((update exChained 100 100).2.1.isRunning = false ↔
      exChained.chainedCount = 0) := by
  refine update_plain_completion exChained [("x", JSVal.num 0)] 100 100
    ?_ ?_ ?_ ?_ ?_ ?_ ?_ <;>
    simp [exChained, chain, exScalarStarted, exScalarCfg, exScalar0, «to»,
      start, mkTween, startProps, startPropStep, lookupProp, setProp]
/-- C10: when a yoyo tween completes its reversed leg (`yoyo` true,
`yoyoCount == 1`, `loop` false), `update` dispatches the completion signal,
starts every chained tween, and returns false, but leaves `isRunning` true
even when there are no chained tweens — only the non-yoyo completion branch
ever clears it. -/
theorem update_yoyo_completion_isRunning (s : Tween)
    (obj : List (String × JSVal)) (time now : ℚ)
    (hobj : s.object = some obj) (hp : s.paused = false)
    (hy : s.yoyoFlag = true) (hc : s.yoyoCount = 1) (hl : s.loopFlag = false)
    (hd0 : 0 < s.duration) (ht : s.startTime + s.duration ≤ time)
    (hrun : s.isRunning = true) :
    (update s time now).1 = .finished ∧
    (update s time now).2.2 =
      .updateDispatch (s.easingFunction 1) :: .completeDispatch ::
        chainStarts s.chainedCount ∧
    (update s time now).2.1.isRunning = true := by
  have hguard : ¬(s.paused = true ∨ time < s.startTime) := by
    push_neg
    refine ⟨by simp [hp], by linarith⟩
  have hel : (if (time - s.startTime) / s.duration > 1 then (1 : ℚ)
              else (time - s.startTime) / s.duration) = 1 := by
    apply clampElapsed_eq_one
    rw [le_div_iff₀ hd0]
    linarith
  unfold update
  rw [if_neg hguard,
      if_neg (show ¬(s.object = none ∧ s.valuesStart ≠ []) by simp [hobj])]
  simp only [hobj, Option.map_some', hel, if_true]
  simp [hy, hc, hl, hrun]

/-- Witness for C10: the yoyo tween `{x: 0} → {x: 10}` after its reversed
leg, updated at the end of that leg. -/
theorem update_yoyo_completion_isRunning_witness :
    (update exYoyoLeg2 200 200).1 = .finished ∧
    (update exYoyoLeg2 200 200).2.2 =
      .updateDispatch (exYoyoLeg2.easingFunction 1) :: .completeDispatch ::
        chainStarts exYoyoLeg2.chainedCount ∧
    (update exYoyoLeg2 200 200).2.1.isRunning = true := by
  refine update_yoyo_completion_isRunning exYoyoLeg2 [("x", JSVal.num 10)]
    200 200 ?_ ?_ ?_ ?_ ?_ ?_ ?_ ?_ <;>
    (simp [exYoyoLeg2, exYoyoStarted, exYoyoCfg, exScalar0, «to», start,
       mkTween, startProps, startPropStep, lookupProp, setProp, update,
       updateProps, blendVal, jsAdd, jsSub, jsMulQ, JSVal.toNum, linEase,
       chainStarts, reverse, swapProps]
     all_goals norm_num [update, updateProps, blendVal, jsAdd, jsSub, jsMulQ,
       JSVal.toNum, linEase, chainStarts, lookupProp, setProp, reverse,
       swapProps, start, startProps, startPropStep])

/-- C6: if the owning game context or the target object is null, `start`
mutates no state, registers nothing with the manager, fires no signal, and
returns undefined rather than throwing. -/
theorem start_noop_without_game_or_target (s : Tween) (looped : Bool)
    (now : ℚ) (h : s.hasGame = false ∨ s.object = none) :
    start s looped now = (.noTarget, s, []) := by
  unfold start
  rw [if_pos h]

/-- Witness for C6 at a tween whose target object is null. -/
theorem start_noop_without_game_or_target_witness :
    start exNoTarget false 0 = (.noTarget, exNoTarget, []) :=
  start_noop_without_game_or_target exNoTarget false 0 (Or.inr rfl)

/-- C8: `to(...)` replaces the easing function only when the supplied
`ease` is non-null, and replaces the delay only when the supplied delay is
strictly positive (otherwise the prior values are kept). -/
theorem to_easing_delay_conditional (s : Tween)
    (props : List (String × JSVal)) (dur : ℚ) (ease : Option (ℚ → ℚ))
    (auto : Bool) (delay : ℚ) (la ya : Bool) (now : ℚ) :
    ((«to» s props dur ease auto delay la ya now).1.easingFunction =
      match ease with
      | some f => f
      | none => s.easingFunction) ∧
    ((«to» s props dur ease auto delay la ya now).1.delayTime =
      if delay > 0 then delay else s.delayTime) := by
  constructor
  · unfold «to»
    by_cases hauto : auto = true
    · rw [if_pos hauto]
      simp [start_easingFunction]
    · rw [if_neg hauto]
  · unfold «to»
    by_cases hauto : auto = true
    · rw [if_pos hauto]
      simp [start_delayTime]
    · rw [if_neg hauto]

/-- C3 (amended): for a non-looping, non-yoyo started tween, `update`
returns false on *every* unpaused call with `time ≥ startTime + duration`
(re-running the whole completion branch, completion dispatch included),
not exactly once; before that point it returns true. -/
theorem update_nonloop_finished_ticks (s : Tween)
    (obj : List (String × JSVal)) (time now : ℚ)
    (hobj : s.object = some obj) (hp : s.paused = false)
    (hy : s.yoyoFlag = false) (hl : s.loopFlag = false)
    (hd0 : 0 < s.duration) :
    (s.startTime ≤ time → time < s.startTime + s.duration →
      (update s time now).1 = .alive) ∧
    (s.startTime + s.duration ≤ time →
      (update s time now).1 = .finished ∧
      .completeDispatch ∈ (update s time now).2.2) := by
  constructor
  · intro h1 h2
    have hguard : ¬(s.paused = true ∨ time < s.startTime) := by
      push_neg
      exact ⟨by simp [hp], h1⟩
    have hlt : (time - s.startTime) / s.duration < 1 := by
      rw [div_lt_one hd0]
      linarith
    unfold update
    rw [if_neg hguard,
        if_neg (show ¬(s.object = none ∧ s.valuesStart ≠ []) by simp [hobj])]
    simp only [hobj, Option.map_some', clampElapsed_lt_one hlt]
    rw [if_neg (show ¬((time - s.startTime) / s.duration = 1) by linarith)]
  · intro h1
    have hguard : ¬(s.paused = true ∨ time < s.startTime) := by
      push_neg
      refine ⟨by simp [hp], by linarith⟩
    have hel : (if (time - s.startTime) / s.duration > 1 then (1 : ℚ)
                else (time - s.startTime) / s.duration) = 1 := by
      apply clampElapsed_eq_one
      rw [le_div_iff₀ hd0]
      linarith
    unfold update
    rw [if_neg hguard,
        if_neg (show ¬(s.object = none ∧ s.valuesStart ≠ []) by simp [hobj])]
    simp only [hobj, Option.map_some', hel, if_true]
    simp [hy, hl]

/-- Witness for C3's amended theorem on the started `{x: 0} → {x: 10}`
tween: alive mid-flight, finished at a tick past the end. -/
theorem update_nonloop_finished_ticks_witness :
    (update exScalarStarted 50 50).1 = .alive ∧
    (update exScalarStarted 150 150).1 = .finished := by
  constructor
  · refine (update_nonloop_finished_ticks exScalarStarted
      [("x", JSVal.num 0)] 50 50 ?_ ?_ ?_ ?_ ?_).1 ?_ ?_ <;>
      (simp [exScalarStarted, exScalarCfg, exScalar0, «to», start, mkTween,
        startProps, startPropStep, lookupProp, setProp]
       try norm_num)
  · refine ((update_nonloop_finished_ticks exScalarStarted
      [("x", JSVal.num 0)] 150 150 ?_ ?_ ?_ ?_ ?_).2 ?_).1 <;>
      (simp [exScalarStarted, exScalarCfg, exScalar0, «to», start, mkTween,
        startProps, startPropStep, lookupProp, setProp]
       try norm_num)

/-- Counterexample to C3 as stated: the started `{x: 0} → {x: 10}` tween
returns false at time 100 and *again* at time 200 — "returns false exactly
once" fails on the code, which re-runs the completion branch on every later
tick. -/
theorem update_false_twice_counterexample :
    (update exScalarStarted 100 100).1 = .finished ∧
    (update (update exScalarStarted 100 100).2.1 200 200).1 = .finished := by
  constructor <;>
    (simp [exScalarStarted, exScalarCfg, exScalar0, «to», start, mkTween,
      startProps, startPropStep, lookupProp, setProp, update, updateProps,
      blendVal, jsAdd, jsSub, jsMulQ, JSVal.toNum, linEase, chainStarts]
     norm_num [update, updateProps, blendVal, jsAdd, jsSub, jsMulQ,
      JSVal.toNum, linEase, chainStarts, lookupProp, setProp]
     all_goals simp)

theorem blendVal_num (interp : List JSVal → ℚ → JSVal) (t : ℚ)
    (vEnd : List (String × JSVal)) (k : String) (a b : ℚ)
    (hend : lookupProp vEnd k = some (.num b)) :
    blendVal interp t vEnd k (.num a) = .num (a + (b - a) * t) := by
  unfold blendVal
  rw [hend]
  simp [jsAdd, jsSub, jsMulQ, JSVal.toNum]

theorem update_scalar_lookup (s : Tween) (obj : List (String × JSVal))
    (p : String) (a b d e time now : ℚ)
    (hobj : s.object = some obj) (hp : s.paused = false)
    (hd : s.duration = d) (hd0 : 0 < d) (he0 : 0 ≤ e) (hed : e ≤ d)
    (ht : time = s.startTime + e)
    (hnd : (s.valuesStart.map Prod.fst).Nodup)
    (hmem : (p, JSVal.num a) ∈ s.valuesStart)
    (hend : lookupProp s.valuesEnd p = some (.num b))
    (hskip : ¬(s.loopFlag = true ∧ s.yoyoFlag = false ∧ e = d)) :
    objLookup (update s time now).2.1 p =
      some (.num (a + (b - a) * s.easingFunction (e / d))) := by
  have hguard : ¬(s.paused = true ∨ time < s.startTime) := by
    push_neg
    refine ⟨by simp [hp], by rw [ht]; linarith⟩
  have helv : (time - s.startTime) / s.duration = e / d := by
    rw [ht, hd]
    ring_nf
  have hle : e / d ≤ 1 := by
    rw [div_le_one hd0]
    exact hed
  have hclamp : (if (time - s.startTime) / s.duration > 1 then (1 : ℚ)
                 else (time - s.startTime) / s.duration) = e / d := by
    rw [helv, if_neg (by linarith)]
  have hlook := updateProps_mem s.interpolationFunction
    (s.easingFunction (e / d)) s.valuesEnd s.valuesStart obj p (.num a)
    hnd hmem
  rw [blendVal_num _ _ _ _ _ _ hend] at hlook
  unfold update
  rw [if_neg hguard,
      if_neg (show ¬(s.object = none ∧ s.valuesStart ≠ []) by simp [hobj])]
  simp only [hobj, Option.map_some', hclamp]
  by_cases hde : e / d = 1
  · have hedq : e = d := by
      field_simp at hde
      exact hde
    rw [if_pos hde]
    by_cases hyy : s.yoyoFlag = true
    · by_cases hc : s.yoyoCount = 0
      · simp [objLookup, hyy, reverse_object, hlook, hc]
      · by_cases hlp : s.loopFlag = false
        · simp [objLookup, hyy, hc, hlp, hlook]
        · simp [objLookup, hyy, hc, hlp, reverse_object, hlook]
    · have hlp : s.loopFlag = false := by
        rcases Bool.eq_false_or_eq_true s.loopFlag with h | h
        · exact absurd ⟨h, by simpa using hyy, hedq⟩ hskip
        · exact h
      simp [objLookup, hyy, hlp, hlook]
  · rw [if_neg hde]
    simp [objLookup, hlook]

theorem update_scalar_lookup_loop (s : Tween) (obj : List (String × JSVal))
    (p : String) (a d time now : ℚ)
    (hobj : s.object = some obj) (hp : s.paused = false)
    (hd : s.duration = d) (hd0 : 0 < d) (ht : time = s.startTime + d)
    (hnd : (s.valuesStart.map Prod.fst).Nodup)
    (hmem : (p, JSVal.num a) ∈ s.valuesStart)
    (hloop : s.loopFlag = true) (hyy : s.yoyoFlag = false) :
    objLookup (update s time now).2.1 p = some (.num a) := by
  have hguard : ¬(s.paused = true ∨ time < s.startTime) := by
    push_neg
    refine ⟨by simp [hp], by rw [ht]; linarith⟩
  have helv : (time - s.startTime) / s.duration = 1 := by
    rw [ht, hd]
    field_simp
  have hclamp : (if (time - s.startTime) / s.duration > 1 then (1 : ℚ)
                 else (time - s.startTime) / s.duration) = 1 := by
    rw [helv]
    simp
  unfold update
  rw [if_neg hguard,
      if_neg (show ¬(s.object = none ∧ s.valuesStart ≠ []) by simp [hobj])]
  simp only [hobj, Option.map_some', hclamp, if_true]
  simp only [hyy, hloop, Bool.false_eq_true, if_false, if_true]
  simp only [objLookup]
  rw [reset_object_some _ now _ rfl]
  simp [lookupProp_writeBack_mem s.valuesStart _ p (.num a) hnd hmem]

/-- C1 (amended): for every started scalar tween, `update(startTime + e)`
sets `target[p]` to `s + (v - s) * easing(e/d)`, matching the direct
computation — except in the one case the claim misses: a looping
(`loop` true, `yoyo` false) tween at `e = d`, where the loop-completion
`reset()` writes the captured start value back before the call returns,
leaving `target[p] = s`. -/
theorem update_scalar_blend (s : Tween) (obj : List (String × JSVal))
    (p : String) (a b d e time now : ℚ)
    (hobj : s.object = some obj) (hp : s.paused = false)
    (hd : s.duration = d) (hd0 : 0 < d) (he0 : 0 ≤ e) (hed : e ≤ d)
    (ht : time = s.startTime + e)
    (hnd : (s.valuesStart.map Prod.fst).Nodup)
    (hmem : (p, JSVal.num a) ∈ s.valuesStart)
    (hend : lookupProp s.valuesEnd p = some (.num b)) :
    (¬(s.loopFlag = true ∧ s.yoyoFlag = false ∧ e = d) →
      objLookup (update s time now).2.1 p =
        some (.num (a + (b - a) * s.easingFunction (e / d)))) ∧
    ((s.loopFlag = true ∧ s.yoyoFlag = false ∧ e = d) →
      objLookup (update s time now).2.1 p = some (.num a)) := by
  constructor
  · intro hskip
    exact update_scalar_lookup s obj p a b d e time now hobj hp hd hd0 he0
      hed ht hnd hmem hend hskip
  · rintro ⟨hloop, hyy, hede⟩
    subst hede
    exact update_scalar_lookup_loop s obj p a e time now hobj hp hd hd0 ht
      hnd hmem hloop hyy

/-- Witness for C1's amended theorem: the started `{x: 0} → {x: 10}` tween
at `e = 50` of `d = 100` lands on `0 + (10 - 0) * easing(1/2)`. -/
theorem update_scalar_blend_witness :
    objLookup (update exScalarStarted 50 50).2.1 "x" =
      some (.num (0 + (10 - 0) * exScalarStarted.easingFunction (50 / 100))) := by
  refine (update_scalar_blend exScalarStarted [("x", JSVal.num 0)] "x" 0 10
    100 50 50 50 ?_ ?_ ?_ ?_ ?_ ?_ ?_ ?_ ?_ ?_).1 ?_ <;>
    (try simp [exScalarStarted, exScalarCfg, exScalar0, «to», start, mkTween,
      startProps, startPropStep, lookupProp, setProp]
     try norm_num)

/-- Counterexample to C1 as stated: the looping tween `{x: 0} → {x: 10}`
(duration 100, linear easing) updated at `startTime + 100` (so `e = d`,
allowed by `0 ≤ e ≤ d`) ends the call with `x = 0` — the loop branch reset
the target — not the claimed `0 + (10 - 0) * easing(100/100) = 10`. -/
theorem update_scalar_blend_counterexample :
    objLookup (update exLoopStarted 100 100).2.1 "x" = some (.num 0) ∧
    some (JSVal.num 0) ≠
      some (.num (0 + (10 - 0) *
        exLoopStarted.easingFunction (100 / 100))) := by
  constructor
  · simp [exLoopStarted, exLoopCfg, exScalar0, «to», start, mkTween,
      startProps, startPropStep, lookupProp, setProp, update, updateProps,
      blendVal, jsAdd, jsSub, jsMulQ, JSVal.toNum, linEase, chainStarts,
      reset, writeBack, objLookup]
    norm_num [update, updateProps, blendVal, jsAdd, jsSub, jsMulQ,
      JSVal.toNum, linEase, chainStarts, lookupProp, setProp, reset,
      writeBack, start, startProps, startPropStep, objLookup]
  · simp [exLoopStarted, exLoopCfg, exScalar0, «to», start, mkTween,
      startProps, startPropStep, lookupProp, setProp, linEase]
    try norm_num

theorem startProps_single_bad (obj : List (String × JSVal)) (looped : Bool)
    (k : String) (v : JSVal) (vS vE : List (String × JSVal))
    (hbad : lookupProp obj k = none ∨ lookupProp obj k = some JSVal.null) :
    startProps obj looped [(k, v)] vS vE = (true, vS, vE) := by
  have h1 : (startPropStep obj looped k vS vE).1 = true :=
    (startPropStep_threw obj looped k vS vE).1.mpr hbad
  have h2 := (startPropStep_threw obj looped k vS vE).2 h1
  rw [startProps_cons, h2]
  simp

/-- C4 (amended): the current target value is prepended to a non-empty
keyframe sequence on *every* `start` call, internal restarts
(`looped == true`) included — only the `startValues` capture is restricted
to `looped == false`.  (The no-null/no-absent hypothesis keeps the loop
from throwing before it reaches `p`.) -/
theorem start_prepends_every_start (s : Tween) (obj : List (String × JSVal))
    (p : String) (c : JSVal) (l : List JSVal) (looped : Bool) (now : ℚ)
    (hg : s.hasGame = true) (hobj : s.object = some obj)
    (hnd : (s.valuesEnd.map Prod.fst).Nodup)
    (hok : ∀ kv ∈ s.valuesEnd, lookupProp obj kv.1 ≠ none ∧
      lookupProp obj kv.1 ≠ some JSVal.null)
    (hmem : (p, JSVal.arr l) ∈ s.valuesEnd) (hl : l ≠ [])
    (hc : lookupProp obj p = some c) :
    lookupProp (start s looped now).2.1.valuesEnd p =
      some (.arr (c :: l)) := by
  rw [start_eq s looped now obj hg hobj]
  show lookupProp
    (startProps obj looped s.valuesEnd s.valuesStart s.valuesEnd).2.2 p =
    some (.arr (c :: l))
  exact startProps_vE_arr obj looped s.valuesEnd s.valuesStart s.valuesEnd
    p c l hnd hok hmem (mem_lookupProp hnd hmem) hl hc

/-- Witness for C4's amended theorem: an internal `start(true)` on the
already-started keyframe tween prepends the target value again. -/
theorem start_prepends_every_start_witness :
    lookupProp (start exArrStarted true 5).2.1.valuesEnd "x" =
      some (.arr [.num 0, .num 0, .num 10]) := by
  refine start_prepends_every_start exArrStarted [("x", JSVal.num 0)] "x"
    (JSVal.num 0) [.num 0, .num 10] true 5 ?_ ?_ ?_ ?_ ?_ ?_ ?_ <;>
    (try simp [exArrStarted, exArrCfg, exScalar0, «to», start, mkTween,
      startProps, startPropStep, lookupProp, setProp])

/-- Counterexample to C4 as stated: after the external `start()` the
keyframes of the `{x: [10]}` tween are `[0, 10]`; the claim says a
subsequent internal `start(true)` must not prepend again, but it does,
leaving `[0, 0, 10]`. -/
theorem start_reprepend_counterexample :
    lookupProp exArrStarted.valuesEnd "x" = some (.arr [.num 0, .num 10]) ∧
    lookupProp (start exArrStarted true 5).2.1.valuesEnd "x" ≠
      some (.arr [.num 0, .num 10]) := by
  constructor <;>
    simp [exArrStarted, exArrCfg, exScalar0, «to», start, mkTween,
      startProps, startPropStep, lookupProp, setProp]

/-- C5 (amended): when `start` hits a key of `endValues` whose target value
is null or absent it raises the error — and because a JS `throw` unwinds
the whole call (the `continue` after the `throw` is dead code), the raise
*does* halt the iteration: keys listed after the faulting one are not
processed, and their `startValues` entries are exactly what they were
before the call. -/
theorem start_throw_halts (s : Tween) (obj : List (String × JSVal))
    (pre rest : List (String × JSVal)) (k : String) (v : JSVal)
    (looped : Bool) (now : ℚ)
    (hg : s.hasGame = true) (hobj : s.object = some obj)
    (hsplit : s.valuesEnd = pre ++ (k, v) :: rest)
    (hbad : lookupProp obj k = none ∨ lookupProp obj k = some JSVal.null) :
    (start s looped now).1 = .threw ∧
    ∀ k', k' ∉ (pre ++ [(k, v)]).map Prod.fst →
      lookupProp (start s looped now).2.1.valuesStart k' =
        lookupProp s.valuesStart k' := by
  have hassoc : s.valuesEnd = (pre ++ [(k, v)]) ++ rest := by
    rw [hsplit]
    simp
  have hr1 : (startProps obj looped (pre ++ [(k, v)])
        s.valuesStart s.valuesEnd).1 = true ∧
      ∀ k', k' ∉ (pre ++ [(k, v)]).map Prod.fst →
        lookupProp (startProps obj looped (pre ++ [(k, v)])
          s.valuesStart s.valuesEnd).2.1 k' =
          lookupProp s.valuesStart k' := by
    rw [startProps_append]
    by_cases hpre : (startProps obj looped pre
        s.valuesStart s.valuesEnd).1 = true
    · rw [if_pos hpre]
      refine ⟨hpre, fun k' hk' => ?_⟩
      refine startProps_vS_not_mem obj looped pre _ _ k' (fun hmem => ?_)
      exact hk' (by simpa using Or.inl (by simpa using hmem))
    · rw [if_neg hpre]
      rw [startProps_single_bad obj looped k v _ _ hbad]
      refine ⟨rfl, fun k' hk' => ?_⟩
      show lookupProp (startProps obj looped pre
        s.valuesStart s.valuesEnd).2.1 k' = lookupProp s.valuesStart k'
      refine startProps_vS_not_mem obj looped pre _ _ k' (fun hmem => ?_)
      exact hk' (by simpa using Or.inl (by simpa using hmem))
  have hmain := startProps_append obj looped (pre ++ [(k, v)]) rest
    s.valuesStart s.valuesEnd
  rw [← hassoc] at hmain
  constructor
  · rw [start_eq s looped now obj hg hobj]
    simp [hmain, hr1.1]
  · intro k' hk'
    rw [start_eq s looped now obj hg hobj]
    show lookupProp
      (startProps obj looped s.valuesEnd s.valuesStart s.valuesEnd).2.1 k' =
      lookupProp s.valuesStart k'
    rw [hmain, if_pos hr1.1]
    exact hr1.2 k' hk'

/-- Witness for C5's amended theorem on the `{a: null, b: 5}` target:
`start` throws at `"a"` and `"b"` keeps its (empty) pre-call capture. -/
theorem start_throw_halts_witness :
    (start exNullCfg false 0).1 = .threw ∧
    lookupProp (start exNullCfg false 0).2.1.valuesStart "b" =
      lookupProp exNullCfg.valuesStart "b" := by
  refine ⟨(start_throw_halts exNullCfg
      [("a", JSVal.null), ("b", JSVal.num 5)] [] [("b", JSVal.num 2)]
      "a" (JSVal.num 1) false 0 ?_ ?_ ?_ ?_).1,
    (start_throw_halts exNullCfg
      [("a", JSVal.null), ("b", JSVal.num 5)] [] [("b", JSVal.num 2)]
      "a" (JSVal.num 1) false 0 ?_ ?_ ?_ ?_).2 "b" (by simp)⟩ <;>
    simp [exNullCfg, exNull0, «to», mkTween, lookupProp]

/-- Counterexample to C5 as stated: the claim says the raise does not halt
the iteration and later valid keys are still captured, but after the
throwing `start` the valid key `"b"` has no captured start value. -/
theorem start_throw_skips_counterexample :
    (start exNullCfg false 0).1 = .threw ∧
    lookupProp (start exNullCfg false 0).2.1.valuesStart "b" = none := by
  constructor <;>
    simp [exNullCfg, exNull0, «to», start, mkTween, startProps,
      startPropStep, lookupProp, setProp]

/-- C7: for a started scalar tween (loop/yoyo off, easing fixing 1),
`reset()` writes every captured `startValues[key]` back onto the target
(restoring pre-tween values) and restarts internally — no manager
registration, no signals, `startTime` re-anchored, `isRunning` true — and
a subsequent `update` at clamped elapsed = 1 sets the target back to the
original end value. -/
theorem reset_roundtrip (s : Tween) (obj : List (String × JSVal))
    (p : String) (a b : ℚ) (now time2 now2 : ℚ)
    (hg : s.hasGame = true) (hobj : s.object = some obj)
    (hp : s.paused = false) (hl : s.loopFlag = false)
    (_hy : s.yoyoFlag = false) (hd0 : 0 < s.duration)
    (he1 : s.easingFunction 1 = 1)
    (hndS : (s.valuesStart.map Prod.fst).Nodup)
    (hmemS : (p, JSVal.num a) ∈ s.valuesStart)
    (hendp : lookupProp s.valuesEnd p = some (.num b))
    (ht2 : time2 = (now + s.delayTime) + s.duration) :
    (∀ kv ∈ s.valuesStart, objLookup (reset s now).2.1 kv.1 = some kv.2) ∧
    (reset s now).2.1.isRunning = true ∧
    (reset s now).2.1.startTime = now + s.delayTime ∧
    (reset s now).2.2 = [] ∧
    objLookup (update (reset s now).2.1 time2 now2).2.1 p =
      some (.num b) := by
  have hreset : reset s now =
      start { s with object := some (writeBack obj s.valuesStart) }
        true now := by
    unfold reset
    rw [hobj]
  have hstart := start_eq
    { s with object := some (writeBack obj s.valuesStart) } true now
    (writeBack obj s.valuesStart) (by simpa using hg) rfl
  rw [hstart] at hreset
  refine ⟨?_, ?_, ?_, ?_, ?_⟩
  · intro kv hkv
    rw [hreset]
    simp only [objLookup, Option.bind]
    exact lookupProp_writeBack_mem s.valuesStart obj kv.1 kv.2 hndS hkv
  · rw [hreset]
  · rw [hreset]
  · rw [hreset]
    simp
  · rw [hreset]
    have h5 := update_scalar_lookup
      { s with
          object := some (writeBack obj s.valuesStart),
          startTime := now + s.delayTime, isRunning := true,
          valuesStart := (startProps (writeBack obj s.valuesStart) true
            s.valuesEnd s.valuesStart s.valuesEnd).2.1,
          valuesEnd := (startProps (writeBack obj s.valuesStart) true
            s.valuesEnd s.valuesStart s.valuesEnd).2.2 }
      (writeBack obj s.valuesStart) p a b s.duration s.duration time2 now2
      rfl (by simpa using hp) rfl hd0 (le_of_lt hd0) le_rfl
      (by simpa using ht2)
      (by rw [startProps_looped_vS]; exact hndS)
      (by rw [startProps_looped_vS]; exact hmemS)
      (startProps_vE_scalar (writeBack obj s.valuesStart) true s.valuesEnd
        s.valuesStart s.valuesEnd p (.num b) hendp (by intro l h; cases h))
      (by simp [hl])
    rw [div_self (ne_of_gt hd0)] at h5
    simp only at h5
    rw [he1] at h5
    rw [h5]
    simp only [Option.some.injEq, JSVal.num.injEq]
    ring

/-- Witness for C7: the `{x: 0} → {x: 10}` tween run to completion, reset
at time 7, then updated at time 107 (= new startTime + duration). -/
theorem reset_roundtrip_witness :
    (∀ kv ∈ exScalarDone.valuesStart,
      objLookup (reset exScalarDone 7).2.1 kv.1 = some kv.2) ∧
    (reset exScalarDone 7).2.1.isRunning = true ∧
    (reset exScalarDone 7).2.1.startTime = 7 + exScalarDone.delayTime ∧
    (reset exScalarDone 7).2.2 = [] ∧
    objLookup (update (reset exScalarDone 7).2.1 107 107).2.1 "x" =
      some (.num 10) := by
  refine reset_roundtrip exScalarDone [("x", JSVal.num 10)] "x" 0 10 7
    107 107 ?_ ?_ ?_ ?_ ?_ ?_ ?_ ?_ ?_ ?_ ?_ <;>
    (try simp [exScalarDone, exScalarStarted, exScalarCfg, exScalar0, «to»,
       start, mkTween, startProps, startPropStep, lookupProp, setProp,
       update, updateProps, blendVal, jsAdd, jsSub, jsMulQ, JSVal.toNum,
       linEase, chainStarts]
     try norm_num [update, updateProps, blendVal, jsAdd, jsSub, jsMulQ,
       JSVal.toNum, linEase, chainStarts, lookupProp, setProp]
     try simp
     try norm_num)

theorem update_yoyoCount_le (s : Tween) (time now : ℚ)
    (h : s.yoyoCount ≤ 1) : (update s time now).2.1.yoyoCount ≤ 1 := by
  unfold update
  split_ifs with hg1 hg2
  · exact h
  · exact h
  · simp only []
    split_ifs with h3 h4 h5 h6 h7
    all_goals try dsimp only at *
    all_goals try simp only [reverse_yoyoCount, reset_yoyoCount]
    all_goals omega

/-- C9: in every state reachable through the external protocol — construct,
configure via `to`/`loop`/`yoyo`, start externally, tick `update` (with
`reverse`/`reset` invoked only inside `update`) — `yoyoCount` is 0 or 1;
installing a fresh forward configuration (`to`, `yoyo`) resets it to 0, and
the non-yoyo loop-restart branch of `update` leaves it 0.  (The yoyo+loop
restart also zeroes it in the code, but its `reverse()` immediately bumps
it back to 1 to mark the reversed leg.) -/
theorem yoyoCount_invariant :
    (∀ s, ReachableTween s → s.yoyoCount ≤ 1) ∧
    (∀ (s : Tween) (props : List (String × JSVal)) (dur : ℚ)
      (ease : Option (ℚ → ℚ)) (auto : Bool) (delay : ℚ) (la ya : Bool)
      (now : ℚ),
      ((«to» s props dur ease auto delay la ya now).1).yoyoCount = 0) ∧
    (∀ (s : Tween) (v : Bool), (yoyo s v).yoyoCount = 0) ∧
    (∀ (s : Tween) (obj : List (String × JSVal)) (time now : ℚ),
      s.object = some obj → s.paused = false → s.loopFlag = true →
      s.yoyoFlag = false → 0 < s.duration →
      s.startTime + s.duration ≤ time →
      (update s time now).2.1.yoyoCount = 0) := by
  refine ⟨?_, ?_, ?_, ?_⟩
  · intro s hs
    induction hs with
    | init obj ease interp => simp [mkTween]
    | toStep s props dur ease auto delay la ya now _ _ =>
        rw [to_yoyoCount]
        norm_num
    | loopStep s v _ ih => simpa [loop] using ih
    | yoyoStep s v _ _ => simp [yoyo]
    | startStep s now _ ih => simpa [start_yoyoCount] using ih
    | updateStep s time now _ ih => exact update_yoyoCount_le s time now ih
  · intro s props dur ease auto delay la ya now
    exact to_yoyoCount s props dur ease auto delay la ya now
  · intro s v
    rfl
  · intro s obj time now hobj hp hloop hyy hd0 ht
    have hguard : ¬(s.paused = true ∨ time < s.startTime) := by
      push_neg
      refine ⟨by simp [hp], by linarith⟩
    have hel : (if (time - s.startTime) / s.duration > 1 then (1 : ℚ)
                else (time - s.startTime) / s.duration) = 1 := by
      apply clampElapsed_eq_one
      rw [le_div_iff₀ hd0]
      linarith
    unfold update
    rw [if_neg hguard,
        if_neg (show ¬(s.object = none ∧ s.valuesStart ≠ []) by simp [hobj])]
    simp only [hobj, Option.map_some', hel, if_true]
    simp [hyy, hloop, reset_yoyoCount]

/-- Witness for C9's invariant at a state reached by configuring a yoyo
tween, starting it, and updating it through the end of its forward leg. -/
theorem yoyoCount_invariant_witness :
    ((update exYoyoStarted 100 100).2.1).yoyoCount ≤ 1 :=
  yoyoCount_invariant.1 _
    (ReachableTween.updateStep _ 100 100
      (ReachableTween.startStep _ 0
        (ReachableTween.toStep exScalar0 [("x", JSVal.num 10)] 100 none
          false 0 false true 0
          (ReachableTween.init (some [("x", JSVal.num 0)]) linEase
            constInterp))))

end Tween

end Phaser
